import Mathlib

/-!
Shallow embedding of `report.py` from opensourcepledge/osp-github-reporter:
the event grouper `make_day_to_events_map` and the payment-reconstruction
engine `reconstruct_payments`, together with theorems about them.

Python dicts are modelled as insertion-ordered association lists (assignment
to an existing key updates the value in place, assignment to a fresh key
appends at the end, `del` removes the entry), `arrow` dates as proleptic
Gregorian `(year, month, day)` triples with `shift(days=+1)` as `nextDate`,
and uncaught Python exceptions (`KeyError` from `del` on a missing login,
`TypeError` from subscripting a `None` tier) as an `Except` error result.
-/

namespace OspReporter

/-- A calendar date: year, month (1-12), day (1-31). -/
structure Date where
  y : Nat
  m : Nat
  d : Nat
deriving DecidableEq, Repr

/-- Lexicographic order on dates, matching `arrow` datetime comparison
restricted to midnight instants. -/
def dateLE (a b : Date) : Prop :=
  a.y < b.y ∨ (a.y = b.y ∧ (a.m < b.m ∨ (a.m = b.m ∧ a.d ≤ b.d)))

/-- Strict lexicographic order on dates. -/
def dateLT (a b : Date) : Prop :=
  a.y < b.y ∨ (a.y = b.y ∧ (a.m < b.m ∨ (a.m = b.m ∧ a.d < b.d)))

instance (a b : Date) : Decidable (dateLE a b) := by
  unfold dateLE; infer_instance

instance (a b : Date) : Decidable (dateLT a b) := by
  unfold dateLT; infer_instance

/-- Gregorian leap-year test. -/
def isLeap (y : Nat) : Bool :=
  (y % 4 == 0 && y % 100 != 0) || y % 400 == 0

/-- Number of days in month `m` of year `y`. -/
def daysInMonth (y m : Nat) : Nat :=
  if m = 2 then (if isLeap y then 29 else 28)
  else if m = 4 ∨ m = 6 ∨ m = 9 ∨ m = 11 then 30
  else 31

/-- The next calendar day, as computed by `curr_date.shift(days=+1)`. -/
def nextDate (a : Date) : Date :=
  if a.d < daysInMonth a.y a.m then ⟨a.y, a.m, a.d + 1⟩
  else if a.m < 12 then ⟨a.y, a.m + 1, 1⟩
  else ⟨a.y + 1, 1, 1⟩

/-- Days in year `y`. -/
def daysInYear (y : Nat) : Nat := if isLeap y then 366 else 365

/-- Days in all years before year `y`: 365 per year plus one per leap year
among `0, …, y-1` (multiples of 4, minus multiples of 100, plus multiples
of 400). -/
def daysBeforeYear (y : Nat) : Nat :=
  365 * y + (y + 3) / 4 - (y + 99) / 100 + (y + 399) / 400

/-- Days in the months of year `y` strictly before month `m`. -/
def daysBeforeMonth (y : Nat) : Nat → Nat
  | 0 => 0
  | 1 => 0
  | m + 1 => daysBeforeMonth y m + daysInMonth y m

/-- Serial day number of a date; consecutive dates get consecutive numbers. -/
def dateIndex (a : Date) : Nat :=
  daysBeforeYear a.y + daysBeforeMonth a.y a.m + a.d

/-- An instant: the calendar date it falls on, plus a second-of-day.
Only the date component is ever consumed (`timestamp.format('YYYY-MM-DD')`). -/
structure Timestamp where
  date : Date
  secondOfDay : Nat
deriving DecidableEq, Repr

/-- A sponsorship tier: `{monthlyPriceInCents, isOneTime}`. -/
structure Tier where
  monthlyPriceInCents : Nat
  isOneTime : Bool
deriving DecidableEq, Repr

/-- A sponsorship event as consumed by the engine: `action` string,
`timestamp`, the sponsorable's `login`, and the optional tiers. -/
structure Event where
  action : String
  timestamp : Timestamp
  login : String
  sponsorsTier : Option Tier
  previousSponsorsTier : Option Tier
deriving DecidableEq, Repr

/-- The calendar day an event is bucketed under
(`arrow.get(event['timestamp']).format('YYYY-MM-DD')`). -/
def eventDay (e : Event) : Date := e.timestamp.date

/-- One reconstructed payment: day, recipient login, signed amount in cents. -/
structure Payment where
  date : Date
  login : String
  amount_in_cents : Int
deriving DecidableEq, Repr

/-- How a reconstruction run aborts: `inconsistentState` models the `KeyError`
raised by `del payment_login_to_amount_map[login]` on a missing login;
`malformedEvent` models the `TypeError` raised by subscripting a `None` tier. -/
inductive RunError where
  | inconsistentState
  | malformedEvent
deriving DecidableEq, Repr

/-- Append `e` to the bucket of `day`, creating the bucket at the end of the
map if absent (Python `defaultdict(list)` append). -/
def insertEvent : List (Date × List Event) → Date → Event → List (Date × List Event)
  | [], day, e => [(day, [e])]
  | (k, v) :: rest, day, e =>
      if k = day then (k, v ++ [e]) :: rest else (k, v) :: insertEvent rest day e

/-- Groups events into buckets keyed by the calendar day of their timestamp,
preserving input order within each bucket (`make_day_to_events_map`). -/
def make_day_to_events_map (events : List Event) : List (Date × List Event) :=
  events.foldl (fun m e => insertEvent m (eventDay e) e) []

/-- Look up the bucket of a day in a grouped map. -/
def lookupDay : List (Date × List Event) → Date → Option (List Event)
  | [], _ => none
  | (k, v) :: rest, day => if k = day then some v else lookupDay rest day

/-- The engine's mutable state: `payment_monthday` (billing day-of-month
anchor, `None` when unset) and `payment_login_to_amount_map` (insertion-ordered
login-to-amount dict). -/
structure SchedState where
  paymentMonthday : Option Nat
  subs : List (String × Nat)
deriving DecidableEq, Repr

/-- Current recurring amount of a login, if any. -/
def lookupSub : List (String × Nat) → String → Option Nat
  | [], _ => none
  | (l, a) :: rest, login => if l = login then some a else lookupSub rest login

/-- Python dict assignment `map[login] = amt`: update in place if the key
exists, else append at the end. -/
def setSub : List (String × Nat) → String → Nat → List (String × Nat)
  | [], login, amt => [(login, amt)]
  | (l, a) :: rest, login, amt =>
      if l = login then (l, amt) :: rest else (l, a) :: setSub rest login amt

/-- Python `del map[login]`: drop the entry. (Keys are unique by
construction, so filtering is the same as deleting the one entry.) -/
def delSub (subs : List (String × Nat)) (login : String) : List (String × Nat) :=
  subs.filter (fun p => ¬ (p.1 = login))

/-- Deletes the login from the map (`remove_sponsorship`; `KeyError`, modelled
as `inconsistentState`, if absent); if the map becomes empty, unset the
billing anchor. -/
def remove_sponsorship (s : SchedState) (login : String) : Except RunError SchedState :=
  match lookupSub s.subs login with
  | none => .error .inconsistentState
  | some _ =>
      let subs := delSub s.subs login
      .ok { subs := subs
            paymentMonthday := if subs = [] then none else s.paymentMonthday }

/-- First per-day pass, one event: handles `CANCELLED_SPONSORSHIP`,
`PENDING_CHANGE`, `SPONSOR_MATCH_DISABLED`, `TIER_CHANGE`, `REFUND`; any other
action (including `NEW_SPONSORSHIP`) falls through the `match` silently. -/
def applyEventA (s : SchedState) (d : Date) (e : Event) :
    Except RunError (List Payment × SchedState) :=
  if e.action = "CANCELLED_SPONSORSHIP" then
    match remove_sponsorship s e.login with
    | .error err => .error err
    | .ok s' => .ok ([], s')
  else if e.action = "PENDING_CHANGE" then .ok ([], s)
  else if e.action = "SPONSOR_MATCH_DISABLED" then .ok ([], s)
  else if e.action = "TIER_CHANGE" then
    match e.sponsorsTier with
    | none => .error .malformedEvent
    | some t =>
        if t.isOneTime then
          match remove_sponsorship s e.login with
          | .error err => .error err
          | .ok s' => .ok ([⟨d, e.login, (t.monthlyPriceInCents : Int)⟩], s')
        else
          .ok ([], { s with subs := setSub s.subs e.login t.monthlyPriceInCents })
  else if e.action = "REFUND" then
    match e.sponsorsTier with
    | none => .error .malformedEvent
    | some t => .ok ([⟨d, e.login, 0 - (t.monthlyPriceInCents : Int)⟩], s)
  else .ok ([], s)

/-- First per-day pass over the whole day bucket, in log order. -/
def stepA (d : Date) : SchedState → List Event → Except RunError (List Payment × SchedState)
  | s, [] => .ok ([], s)
  | s, e :: es =>
      match applyEventA s d e with
      | .error err => .error err
      | .ok (ps, s') =>
          match stepA d s' es with
          | .error err => .error err
          | .ok (ps', s'') => .ok (ps ++ ps', s'')

/-- Scheduled recurring charge: if the day-of-month equals the anchor, one
payment per active subscription, in insertion order. -/
def stepB (s : SchedState) (d : Date) : List Payment :=
  if some d.d = s.paymentMonthday then
    s.subs.map (fun p => ⟨d, p.1, (p.2 : Int)⟩)
  else []

/-- Second per-day pass, one event: handles `NEW_SPONSORSHIP` (immediate
signup charge; a recurring tier is added to the map and anchors the billing
day-of-month when unset); any other action falls through silently. -/
def applyEventC (s : SchedState) (d : Date) (e : Event) :
    Except RunError (List Payment × SchedState) :=
  if e.action = "NEW_SPONSORSHIP" then
    match e.sponsorsTier with
    | none => .error .malformedEvent
    | some t =>
        let p : Payment := ⟨d, e.login, (t.monthlyPriceInCents : Int)⟩
        if t.isOneTime then .ok ([p], s)
        else
          .ok ([p], { paymentMonthday := some (s.paymentMonthday.getD d.d)
                      subs := setSub s.subs e.login t.monthlyPriceInCents })
  else .ok ([], s)

/-- Second per-day pass over the whole day bucket, in log order. -/
def stepC (d : Date) : SchedState → List Event → Except RunError (List Payment × SchedState)
  | s, [] => .ok ([], s)
  | s, e :: es =>
      match applyEventC s d e with
      | .error err => .error err
      | .ok (ps, s') =>
          match stepC d s' es with
          | .error err => .error err
          | .ok (ps', s'') => .ok (ps ++ ps', s'')

/-- One iteration of the engine's day loop: pass A, then the scheduled
charge computed on the post-pass-A state, then pass C. -/
def processDay (s : SchedState) (d : Date) (es : List Event) :
    Except RunError (List Payment × SchedState) :=
  match stepA d s es with
  | .error err => .error err
  | .ok (pa, s1) =>
      let pb := stepB s1 d
      match stepC d s1 es with
      | .error err => .error err
      | .ok (pc, s2) => .ok (pa ++ pb ++ pc, s2)

/-- The list of days the `while curr_date <= end_date` loop visits, computed
with enough fuel to reach `fin` from `start`. -/
def dateRangeAux : Date → Date → Nat → List Date
  | _, _, 0 => []
  | curr, fin, fuel + 1 =>
      if dateLE curr fin then curr :: dateRangeAux (nextDate curr) fin fuel else []

/-- Inclusive day range from `start` to `fin` (empty when `fin` precedes
`start`). -/
def dateRange (start fin : Date) : List Date :=
  dateRangeAux start fin (dateIndex fin + 1 - dateIndex start)

/-- Run the engine over a list of days, threading the schedule state and
accumulating payments; the day buckets come from `getEvents`. -/
def runOverDays (getEvents : Date → List Event) :
    SchedState → List Date → Except RunError (List Payment × SchedState)
  | s, [] => .ok ([], s)
  | s, day :: rest =>
      match processDay s day (getEvents day) with
      | .error err => .error err
      | .ok (ps, s') =>
          match runOverDays getEvents s' rest with
          | .error err => .error err
          | .ok (ps', s'') => .ok (ps ++ ps', s'')

/-- The day bucket the engine consults: `day_to_events_map[formatted_day]`,
with the `defaultdict` returning `[]` for an absent day. -/
def todaysEvents (events : List Event) (d : Date) : List Event :=
  (lookupDay (make_day_to_events_map events) d).getD []

/-- The ordered subsequence of `events` whose timestamp falls on day `d`. -/
def dayFilter (events : List Event) (d : Date) : List Event :=
  events.filter (fun e => eventDay e = d)

/-- Walks every calendar day from `start_date` to `end_date` inclusive
against the live schedule state and returns the accumulated payments, or the
error that aborted the run (`reconstruct_payments(events, start_date,
end_date)`). -/
def reconstruct_payments (events : List Event) (start_date end_date : Date) :
    Except RunError (List Payment) :=
  match runOverDays (todaysEvents events) ⟨none, []⟩ (dateRange start_date end_date) with
  | .error err => .error err
  | .ok (ps, _) => .ok ps

end OspReporter

namespace OspReporter

theorem dateLE_refl (a : Date) : dateLE a a := by
  unfold dateLE; omega

theorem dateLE_of_dateLT {a b : Date} (h : dateLT a b) : dateLE a b := by
  unfold dateLT at h; unfold dateLE; omega

theorem not_dateLE_of_dateLT {a b : Date} (h : dateLT a b) : ¬ dateLE b a := by
  unfold dateLT at h; unfold dateLE; omega

theorem dateLE_trans {a b c : Date} (h1 : dateLE a b) (h2 : dateLE b c) : dateLE a c := by
  unfold dateLE at *; omega

theorem dateLT_of_dateLT_of_dateLE {a b c : Date} (h1 : dateLT a b) (h2 : dateLE b c) :
    dateLT a c := by
  unfold dateLT at *; unfold dateLE at h2; omega

theorem dateLT_of_dateLE_of_dateLT {a b c : Date} (h1 : dateLE a b) (h2 : dateLT b c) :
    dateLT a c := by
  unfold dateLT at *; unfold dateLE at h1; omega

theorem ne_of_dateLT {a b : Date} (h : dateLT a b) : a ≠ b := by
  intro hab; subst hab; unfold dateLT at h; omega

theorem dateLT_nextDate (a : Date) : dateLT a (nextDate a) := by
  unfold nextDate
  by_cases h1 : a.d < daysInMonth a.y a.m
  · simp only [if_pos h1]; unfold dateLT; dsimp only; omega
  · simp only [if_neg h1]
    by_cases h2 : a.m < 12
    · simp only [if_pos h2]; unfold dateLT; dsimp only; omega
    · simp only [if_neg h2]; unfold dateLT; dsimp only; omega

theorem mem_dateRangeAux {d curr fin : Date} {fuel : Nat}
    (h : d ∈ dateRangeAux curr fin fuel) : dateLE curr d ∧ dateLE d fin := by
  induction fuel generalizing curr with
  | zero => simp [dateRangeAux] at h
  | succ n ih =>
      unfold dateRangeAux at h
      by_cases hg : dateLE curr fin
      · simp only [if_pos hg, List.mem_cons] at h
        rcases h with h | h
        · subst h; exact ⟨dateLE_refl d, hg⟩
        · have := ih h
          exact ⟨dateLE_trans (dateLE_of_dateLT (dateLT_nextDate curr)) this.1, this.2⟩
      · simp [if_neg hg] at h

theorem mem_dateRange {d start fin : Date} (h : d ∈ dateRange start fin) :
    dateLE start d ∧ dateLE d fin :=
  mem_dateRangeAux h

theorem dateRange_nil_of_lt {start fin : Date} (h : dateLT fin start) :
    dateRange start fin = [] := by
  unfold dateRange
  cases hf : dateIndex fin + 1 - dateIndex start with
  | zero => rfl
  | succ n => unfold dateRangeAux; simp [if_neg (not_dateLE_of_dateLT h)]

end OspReporter

namespace OspReporter

/-- C2 counterexample: with `end_date` strictly before `start_date` the engine
does not fail; it returns the completed (empty) ledger. The code has no range
check: the `while curr_date <= end_date` loop simply never runs. -/
theorem c2_no_invalid_range_error :
    reconstruct_payments
      [⟨"NEW_SPONSORSHIP", ⟨⟨2024, 1, 5⟩, 0⟩, "alice", some ⟨500, false⟩, none⟩]
      ⟨2024, 1, 2⟩ ⟨2024, 1, 1⟩ = .ok [] := by
  rfl

/-- C2 (amended): for every event list and every pair of dates with `end_date`
strictly before `start_date`, the engine succeeds with the empty payment list
(it performs no range validation and reports no error). -/
theorem c2_invalid_range_returns_empty (events : List Event) (start fin : Date)
    (h : dateLT fin start) : reconstruct_payments events start fin = .ok [] := by
  unfold reconstruct_payments
  rw [dateRange_nil_of_lt h]
  rfl

/-- Witness for `c2_invalid_range_returns_empty` at a concrete input. -/
theorem c2_invalid_range_witness :
    reconstruct_payments
      [⟨"REFUND", ⟨⟨2024, 1, 5⟩, 0⟩, "alice", some ⟨500, false⟩, none⟩]
      ⟨2024, 3, 1⟩ ⟨2024, 2, 28⟩ = .ok [] :=
  c2_invalid_range_returns_empty _ _ _ (by decide)

set_option maxRecDepth 100000 in
/-- C5: the two concrete scenarios from the spec. A single recurring
`NEW_SPONSORSHIP` of 500 cents for alice on 2024-01-05, over the inclusive
range 2024-01-01 to 2024-03-10, yields exactly the signup charge plus the
February and March recurring charges on the 5th, in that order; adding a
`CANCELLED_SPONSORSHIP` on 2024-02-10 drops the March charge. -/
theorem c5_concrete_scenarios :
    reconstruct_payments
        [⟨"NEW_SPONSORSHIP", ⟨⟨2024, 1, 5⟩, 0⟩, "alice", some ⟨500, false⟩, none⟩]
        ⟨2024, 1, 1⟩ ⟨2024, 3, 10⟩ =
      .ok [⟨⟨2024, 1, 5⟩, "alice", 500⟩, ⟨⟨2024, 2, 5⟩, "alice", 500⟩,
           ⟨⟨2024, 3, 5⟩, "alice", 500⟩] ∧
    reconstruct_payments
        [⟨"NEW_SPONSORSHIP", ⟨⟨2024, 1, 5⟩, 0⟩, "alice", some ⟨500, false⟩, none⟩,
         ⟨"CANCELLED_SPONSORSHIP", ⟨⟨2024, 2, 10⟩, 0⟩, "alice", none, none⟩]
        ⟨2024, 1, 1⟩ ⟨2024, 3, 10⟩ =
      .ok [⟨⟨2024, 1, 5⟩, "alice", 500⟩, ⟨⟨2024, 2, 5⟩, "alice", 500⟩] :=
  ⟨rfl, rfl⟩

end OspReporter

namespace OspReporter

theorem remove_sponsorship_ok {s : SchedState} {login : String} {s' : SchedState}
    (h : remove_sponsorship s login = .ok s') :
    s'.subs = delSub s.subs login ∧
    s'.paymentMonthday = (if delSub s.subs login = [] then none else s.paymentMonthday) := by
  unfold remove_sponsorship at h
  cases hl : lookupSub s.subs login with
  | none => rw [hl] at h; simp at h
  | some a => rw [hl] at h; simp only [Except.ok.injEq] at h; subst h; exact ⟨rfl, rfl⟩

theorem remove_sponsorship_error {s : SchedState} {login : String}
    (h : lookupSub s.subs login = none) :
    remove_sponsorship s login = .error .inconsistentState := by
  unfold remove_sponsorship; rw [h]

theorem setSub_ne_nil (subs : List (String × Nat)) (login : String) (amt : Nat) :
    setSub subs login amt ≠ [] := by
  cases subs with
  | nil => simp [setSub]
  | cons p rest =>
      obtain ⟨l, a⟩ := p
      unfold setSub
      by_cases hl : l = login <;> simp [hl]

theorem applyEventA_empty_unset {s : SchedState} {d : Date} {e : Event}
    {ps : List Payment} {s' : SchedState}
    (hs : s.subs = [] → s.paymentMonthday = none)
    (h : applyEventA s d e = .ok (ps, s')) :
    s'.subs = [] → s'.paymentMonthday = none := by
  unfold applyEventA at h
  split_ifs at h
  · cases hrem : remove_sponsorship s e.login with
    | error err => rw [hrem] at h; simp at h
    | ok s2 =>
        rw [hrem] at h
        simp only [Except.ok.injEq, Prod.mk.injEq] at h
        obtain ⟨-, rfl⟩ := h
        obtain ⟨h1, h2⟩ := remove_sponsorship_ok hrem
        intro hnil
        rw [h2, if_pos (h1 ▸ hnil)]
  · simp only [Except.ok.injEq, Prod.mk.injEq] at h
    obtain ⟨-, rfl⟩ := h; exact hs
  · simp only [Except.ok.injEq, Prod.mk.injEq] at h
    obtain ⟨-, rfl⟩ := h; exact hs
  · cases ht : e.sponsorsTier with
    | none => rw [ht] at h; simp at h
    | some t =>
        rw [ht] at h
        dsimp only at h
        by_cases hot : t.isOneTime
        · rw [if_pos hot] at h
          cases hrem : remove_sponsorship s e.login with
          | error err => rw [hrem] at h; simp at h
          | ok s2 =>
              rw [hrem] at h
              simp only [Except.ok.injEq, Prod.mk.injEq] at h
              obtain ⟨-, rfl⟩ := h
              obtain ⟨h1, h2⟩ := remove_sponsorship_ok hrem
              intro hnil
              rw [h2, if_pos (h1 ▸ hnil)]
        · rw [if_neg hot] at h
          simp only [Except.ok.injEq, Prod.mk.injEq] at h
          obtain ⟨-, rfl⟩ := h
          intro hnil
          exact absurd hnil (setSub_ne_nil _ _ _)
  · cases ht : e.sponsorsTier with
    | none => rw [ht] at h; simp at h
    | some t =>
        rw [ht] at h
        dsimp only at h
        simp only [Except.ok.injEq, Prod.mk.injEq] at h
        obtain ⟨-, rfl⟩ := h; exact hs
  · simp only [Except.ok.injEq, Prod.mk.injEq] at h
    obtain ⟨-, rfl⟩ := h; exact hs

theorem applyEventC_empty_unset {s : SchedState} {d : Date} {e : Event}
    {ps : List Payment} {s' : SchedState}
    (hs : s.subs = [] → s.paymentMonthday = none)
    (h : applyEventC s d e = .ok (ps, s')) :
    s'.subs = [] → s'.paymentMonthday = none := by
  unfold applyEventC at h
  split_ifs at h
  · cases ht : e.sponsorsTier with
    | none => rw [ht] at h; simp at h
    | some t =>
        rw [ht] at h
        dsimp only at h
        by_cases hot : t.isOneTime
        · rw [if_pos hot] at h
          simp only [Except.ok.injEq, Prod.mk.injEq] at h
          obtain ⟨-, rfl⟩ := h; exact hs
        · rw [if_neg hot] at h
          simp only [Except.ok.injEq, Prod.mk.injEq] at h
          obtain ⟨-, rfl⟩ := h
          intro hnil
          exact absurd hnil (setSub_ne_nil _ _ _)
  · simp only [Except.ok.injEq, Prod.mk.injEq] at h
    obtain ⟨-, rfl⟩ := h; exact hs

theorem stepA_empty_unset {d : Date} {es : List Event} {s : SchedState}
    {ps : List Payment} {s' : SchedState}
    (hs : s.subs = [] → s.paymentMonthday = none)
    (h : stepA d s es = .ok (ps, s')) :
    s'.subs = [] → s'.paymentMonthday = none := by
  induction es generalizing s ps with
  | nil =>
      unfold stepA at h
      simp only [Except.ok.injEq, Prod.mk.injEq] at h
      obtain ⟨-, rfl⟩ := h; exact hs
  | cons e es ih =>
      unfold stepA at h
      cases h1 : applyEventA s d e with
      | error err => rw [h1] at h; simp at h
      | ok q =>
          obtain ⟨ps1, s1⟩ := q
          rw [h1] at h
          dsimp only at h
          cases h2 : stepA d s1 es with
          | error err => rw [h2] at h; simp at h
          | ok q2 =>
              obtain ⟨ps2, s2⟩ := q2
              rw [h2] at h
              simp only [Except.ok.injEq, Prod.mk.injEq] at h
              obtain ⟨-, rfl⟩ := h
              exact ih (applyEventA_empty_unset hs h1) h2

theorem stepC_empty_unset {d : Date} {es : List Event} {s : SchedState}
    {ps : List Payment} {s' : SchedState}
    (hs : s.subs = [] → s.paymentMonthday = none)
    (h : stepC d s es = .ok (ps, s')) :
    s'.subs = [] → s'.paymentMonthday = none := by
  induction es generalizing s ps with
  | nil =>
      unfold stepC at h
      simp only [Except.ok.injEq, Prod.mk.injEq] at h
      obtain ⟨-, rfl⟩ := h; exact hs
  | cons e es ih =>
      unfold stepC at h
      cases h1 : applyEventC s d e with
      | error err => rw [h1] at h; simp at h
      | ok q =>
          obtain ⟨ps1, s1⟩ := q
          rw [h1] at h
          dsimp only at h
          cases h2 : stepC d s1 es with
          | error err => rw [h2] at h; simp at h
          | ok q2 =>
              obtain ⟨ps2, s2⟩ := q2
              rw [h2] at h
              simp only [Except.ok.injEq, Prod.mk.injEq] at h
              obtain ⟨-, rfl⟩ := h
              exact ih (applyEventC_empty_unset hs h1) h2

theorem processDay_empty_unset {s : SchedState} {d : Date} {es : List Event}
    {ps : List Payment} {s' : SchedState}
    (hs : s.subs = [] → s.paymentMonthday = none)
    (h : processDay s d es = .ok (ps, s')) :
    s'.subs = [] → s'.paymentMonthday = none := by
  unfold processDay at h
  cases h1 : stepA d s es with
  | error err => rw [h1] at h; simp at h
  | ok q =>
      obtain ⟨pa, s1⟩ := q
      rw [h1] at h
      dsimp only at h
      cases h2 : stepC d s1 es with
      | error err => rw [h2] at h; simp at h
      | ok q2 =>
          obtain ⟨pc, s2⟩ := q2
          rw [h2] at h
          simp only [Except.ok.injEq, Prod.mk.injEq] at h
          obtain ⟨-, rfl⟩ := h
          exact stepC_empty_unset (stepA_empty_unset hs h1) h2

theorem runOverDays_empty_unset {getEvents : Date → List Event} {days : List Date}
    {s : SchedState} {ps : List Payment} {s' : SchedState}
    (hs : s.subs = [] → s.paymentMonthday = none)
    (h : runOverDays getEvents s days = .ok (ps, s')) :
    s'.subs = [] → s'.paymentMonthday = none := by
  induction days generalizing s ps with
  | nil =>
      unfold runOverDays at h
      simp only [Except.ok.injEq, Prod.mk.injEq] at h
      obtain ⟨-, rfl⟩ := h; exact hs
  | cons day rest ih =>
      unfold runOverDays at h
      cases h1 : processDay s day (getEvents day) with
      | error err => rw [h1] at h; simp at h
      | ok q =>
          obtain ⟨ps1, s1⟩ := q
          rw [h1] at h
          dsimp only at h
          cases h2 : runOverDays getEvents s1 rest with
          | error err => rw [h2] at h; simp at h
          | ok q2 =>
              obtain ⟨ps2, s2⟩ := q2
              rw [h2] at h
              simp only [Except.ok.injEq, Prod.mk.injEq] at h
              obtain ⟨-, rfl⟩ := h
              exact ih (processDay_empty_unset hs h1) h2

end OspReporter

namespace OspReporter

/-- C1 counterexample: a run whose only event is a recurring `TIER_CHANGE` for
a login that is not in the active-subscriptions map reaches (and ends in) a
schedule state with a non-empty map and an unset billing day-of-month, so the
claimed invariant "billing day unset ⇔ active map empty" is violated: the
tier-change assignment adds the login without setting the anchor. -/
theorem c1_invariant_violated :
    runOverDays
        (todaysEvents
          [⟨"TIER_CHANGE", ⟨⟨2024, 1, 10⟩, 0⟩, "alice", some ⟨500, false⟩, none⟩])
        ⟨none, []⟩ (dateRange ⟨2024, 1, 1⟩ ⟨2024, 1, 15⟩) =
      .ok ([], ⟨none, [("alice", 500)]⟩) ∧
    ¬ (((⟨none, [("alice", 500)]⟩ : SchedState).paymentMonthday = none) ↔
       ((⟨none, [("alice", 500)]⟩ : SchedState).subs = [])) :=
  ⟨rfl, by decide⟩

/-- C1 (amended): one direction of the invariant holds for every run — if the
active-subscriptions map is empty then the billing day-of-month is unset. The
converse can fail, exactly through a recurring `TIER_CHANGE` whose login is
absent: such an event adds the login to the map and leaves the (possibly
unset) anchor untouched. -/
theorem c1_amended_empty_implies_unset :
    (∀ (getEvents : Date → List Event) (days : List Date) (s : SchedState)
        (ps : List Payment) (s' : SchedState),
        (s.subs = [] → s.paymentMonthday = none) →
        runOverDays getEvents s days = .ok (ps, s') →
        (s'.subs = [] → s'.paymentMonthday = none)) ∧
    (∀ (s : SchedState) (d : Date) (e : Event) (t : Tier),
        e.action = "TIER_CHANGE" → e.sponsorsTier = some t → t.isOneTime = false →
        applyEventA s d e =
          .ok ([], { s with subs := setSub s.subs e.login t.monthlyPriceInCents })) := by
  constructor
  · intro getEvents days s ps s' hs h
    exact runOverDays_empty_unset hs h
  · intro s d e t hact htier hot
    unfold applyEventA
    rw [hact]
    rw [if_neg (by decide), if_neg (by decide), if_neg (by decide), if_pos rfl, htier]
    dsimp only
    rw [hot]
    rfl

/-- Witness for `c1_amended_empty_implies_unset` at concrete inputs. -/
theorem c1_amended_witness :
    ((⟨none, []⟩ : SchedState).subs = [] → (⟨none, []⟩ : SchedState).paymentMonthday = none) ∧
    applyEventA ⟨none, []⟩ ⟨2024, 1, 10⟩
        ⟨"TIER_CHANGE", ⟨⟨2024, 1, 10⟩, 0⟩, "alice", some ⟨500, false⟩, none⟩ =
      .ok ([], ⟨none, [("alice", 500)]⟩) :=
  ⟨c1_amended_empty_implies_unset.1 (fun _ => []) [] ⟨none, []⟩ [] ⟨none, []⟩
      (fun _ => rfl) rfl,
   c1_amended_empty_implies_unset.2 ⟨none, []⟩ ⟨2024, 1, 10⟩
      ⟨"TIER_CHANGE", ⟨⟨2024, 1, 10⟩, 0⟩, "alice", some ⟨500, false⟩, none⟩
      ⟨500, false⟩ rfl rfl rfl⟩

/-- C7: a `REFUND` event with tier amount `a` emits, during the first
(Step A) pass of its day, exactly `Payment(d, login, 0 − a)`, and returns the
schedule state it was given: neither `active_subscriptions` nor the billing
anchor is touched. -/
theorem c7_refund_emits_and_frames (s : SchedState) (d : Date) (e : Event) (t : Tier)
    (hact : e.action = "REFUND") (htier : e.sponsorsTier = some t) :
    applyEventA s d e = .ok ([⟨d, e.login, 0 - (t.monthlyPriceInCents : Int)⟩], s) := by
  unfold applyEventA
  rw [hact]
  rw [if_neg (by decide), if_neg (by decide), if_neg (by decide), if_neg (by decide),
    if_pos rfl, htier]

/-- Witness for `c7_refund_emits_and_frames` at a concrete input. -/
theorem c7_refund_witness :
    applyEventA ⟨some 5, [("alice", 500)]⟩ ⟨2024, 1, 7⟩
        ⟨"REFUND", ⟨⟨2024, 1, 7⟩, 0⟩, "bob", some ⟨300, false⟩, none⟩ =
      .ok ([⟨⟨2024, 1, 7⟩, "bob", -300⟩], ⟨some 5, [("alice", 500)]⟩) :=
  c7_refund_emits_and_frames ⟨some 5, [("alice", 500)]⟩ ⟨2024, 1, 7⟩
    ⟨"REFUND", ⟨⟨2024, 1, 7⟩, 0⟩, "bob", some ⟨300, false⟩, none⟩ ⟨300, false⟩ rfl rfl

end OspReporter

namespace OspReporter

theorem stepA_cons (d : Date) (s : SchedState) (e : Event) (es : List Event) :
    stepA d s (e :: es) =
      match applyEventA s d e with
      | .error err => .error err
      | .ok (ps, s') =>
          match stepA d s' es with
          | .error err => .error err
          | .ok (ps', s'') => .ok (ps ++ ps', s'') := rfl

theorem stepC_cons (d : Date) (s : SchedState) (e : Event) (es : List Event) :
    stepC d s (e :: es) =
      match applyEventC s d e with
      | .error err => .error err
      | .ok (ps, s') =>
          match stepC d s' es with
          | .error err => .error err
          | .ok (ps', s'') => .ok (ps ++ ps', s'') := rfl

theorem stepA_append (d : Date) (xs : List Event) :
    ∀ (s : SchedState) (ys : List Event),
    stepA d s (xs ++ ys) =
      match stepA d s xs with
      | .error err => .error err
      | .ok (ps, s1) =>
          match stepA d s1 ys with
          | .error err => .error err
          | .ok (ps', s2) => .ok (ps ++ ps', s2) := by
  induction xs with
  | nil =>
      intro s ys
      cases h : stepA d s ys with
      | error err => simp [stepA, h]
      | ok q => obtain ⟨ps', s2⟩ := q; simp [stepA, h]
  | cons e xs ih =>
      intro s ys
      rw [List.cons_append, stepA_cons, stepA_cons]
      cases h1 : applyEventA s d e with
      | error err => rfl
      | ok q =>
          obtain ⟨ps1, s1⟩ := q
          dsimp only
          rw [ih s1 ys]
          cases h2 : stepA d s1 xs with
          | error err => rfl
          | ok q2 =>
              obtain ⟨ps2, s2⟩ := q2
              dsimp only
              cases h3 : stepA d s2 ys with
              | error err => rfl
              | ok q3 =>
                  obtain ⟨ps3, s3⟩ := q3
                  dsimp only
                  rw [List.append_assoc]

theorem stepC_append (d : Date) (xs : List Event) :
    ∀ (s : SchedState) (ys : List Event),
    stepC d s (xs ++ ys) =
      match stepC d s xs with
      | .error err => .error err
      | .ok (ps, s1) =>
          match stepC d s1 ys with
          | .error err => .error err
          | .ok (ps', s2) => .ok (ps ++ ps', s2) := by
  induction xs with
  | nil =>
      intro s ys
      cases h : stepC d s ys with
      | error err => simp [stepC, h]
      | ok q => obtain ⟨ps', s2⟩ := q; simp [stepC, h]
  | cons e xs ih =>
      intro s ys
      rw [List.cons_append, stepC_cons, stepC_cons]
      cases h1 : applyEventC s d e with
      | error err => rfl
      | ok q =>
          obtain ⟨ps1, s1⟩ := q
          dsimp only
          rw [ih s1 ys]
          cases h2 : stepC d s1 xs with
          | error err => rfl
          | ok q2 =>
              obtain ⟨ps2, s2⟩ := q2
              dsimp only
              cases h3 : stepC d s2 ys with
              | error err => rfl
              | ok q3 =>
                  obtain ⟨ps3, s3⟩ := q3
                  dsimp only
                  rw [List.append_assoc]

/-- C3: on a day whose bucket contains a `CANCELLED_SPONSORSHIP` event, let
`s1` be the schedule state after the Step A prefix before it. If the named
login is not in the active map at that point, the day's processing — and any
run that reaches this day — aborts with the inconsistent-state error (the
`KeyError` of `del` on a missing key), returning no ledger. If the login is
present, the event emits nothing, removes it from the map, and unsets the
billing day-of-month exactly when the map becomes empty. -/
theorem c3_cancelled_removes_or_aborts (s : SchedState) (d : Date)
    (es1 es2 : List Event) (e : Event) (ps1 : List Payment) (s1 : SchedState)
    (hact : e.action = "CANCELLED_SPONSORSHIP")
    (hA : stepA d s es1 = .ok (ps1, s1)) :
    (lookupSub s1.subs e.login = none →
       processDay s d (es1 ++ e :: es2) = .error .inconsistentState ∧
       ∀ (getEvents : Date → List Event) (days : List Date),
         getEvents d = es1 ++ e :: es2 →
         runOverDays getEvents s (d :: days) = .error .inconsistentState) ∧
    (lookupSub s1.subs e.login ≠ none →
       applyEventA s1 d e =
         .ok ([], ⟨(if delSub s1.subs e.login = [] then none else s1.paymentMonthday),
                   delSub s1.subs e.login⟩)) := by
  constructor
  · intro habs
    have herr : stepA d s (es1 ++ e :: es2) = .error .inconsistentState := by
      rw [stepA_append, hA]
      dsimp only
      unfold stepA
      unfold applyEventA
      rw [if_pos hact, remove_sponsorship_error habs]
    have hday : processDay s d (es1 ++ e :: es2) = .error .inconsistentState := by
      unfold processDay
      rw [herr]
    refine ⟨hday, ?_⟩
    intro getEvents days hget
    unfold runOverDays
    rw [hget, hday]
  · intro hpres
    cases hl : lookupSub s1.subs e.login with
    | none => exact absurd hl hpres
    | some a =>
        unfold applyEventA
        rw [if_pos hact]
        unfold remove_sponsorship
        rw [hl]

/-- Witness for `c3_cancelled_removes_or_aborts`: a cancellation for an
absent login aborts the day with the inconsistent-state error; a cancellation
for the only active login removes it and unsets the anchor. -/
theorem c3_cancelled_witness :
    processDay ⟨none, []⟩ ⟨2024, 1, 10⟩
        [⟨"CANCELLED_SPONSORSHIP", ⟨⟨2024, 1, 10⟩, 0⟩, "alice", none, none⟩] =
      .error .inconsistentState ∧
    applyEventA ⟨some 5, [("alice", 500)]⟩ ⟨2024, 1, 10⟩
        ⟨"CANCELLED_SPONSORSHIP", ⟨⟨2024, 1, 10⟩, 0⟩, "alice", none, none⟩ =
      .ok ([], ⟨none, []⟩) :=
  ⟨((c3_cancelled_removes_or_aborts ⟨none, []⟩ ⟨2024, 1, 10⟩ [] []
      ⟨"CANCELLED_SPONSORSHIP", ⟨⟨2024, 1, 10⟩, 0⟩, "alice", none, none⟩
      [] ⟨none, []⟩ rfl rfl).1 rfl).1,
   (c3_cancelled_removes_or_aborts ⟨some 5, [("alice", 500)]⟩ ⟨2024, 1, 10⟩ [] []
      ⟨"CANCELLED_SPONSORSHIP", ⟨⟨2024, 1, 10⟩, 0⟩, "alice", none, none⟩
      [] ⟨some 5, [("alice", 500)]⟩ rfl rfl).2 (by decide)⟩

end OspReporter

namespace OspReporter

theorem applyEventA_noop {e : Event} (hc : e.action ≠ "CANCELLED_SPONSORSHIP")
    (ht : e.action ≠ "TIER_CHANGE") (hr : e.action ≠ "REFUND")
    (s : SchedState) (d : Date) : applyEventA s d e = .ok ([], s) := by
  unfold applyEventA
  rw [if_neg hc]
  by_cases hp : e.action = "PENDING_CHANGE"
  · rw [if_pos hp]
  · rw [if_neg hp]
    by_cases hm : e.action = "SPONSOR_MATCH_DISABLED"
    · rw [if_pos hm]
    · rw [if_neg hm, if_neg ht, if_neg hr]

theorem applyEventC_noop {e : Event} (hn : e.action ≠ "NEW_SPONSORSHIP")
    (s : SchedState) (d : Date) : applyEventC s d e = .ok ([], s) := by
  unfold applyEventC
  rw [if_neg hn]

theorem applyEventC_new {e : Event} {t : Tier} (hact : e.action = "NEW_SPONSORSHIP")
    (htier : e.sponsorsTier = some t) (hrec : t.isOneTime = false)
    (s : SchedState) (d : Date) :
    applyEventC s d e =
      .ok ([⟨d, e.login, (t.monthlyPriceInCents : Int)⟩],
           ⟨some (s.paymentMonthday.getD d.d),
            setSub s.subs e.login t.monthlyPriceInCents⟩) := by
  unfold applyEventC
  rw [if_pos hact, htier]
  dsimp only
  rw [hrec]
  rfl

theorem applyEventA_payment_login {s : SchedState} {d : Date} {e : Event}
    {ps : List Payment} {s' : SchedState}
    (h : applyEventA s d e = .ok (ps, s')) :
    ∀ p ∈ ps, p.login = e.login := by
  unfold applyEventA at h
  split_ifs at h
  · cases hrem : remove_sponsorship s e.login with
    | error err => rw [hrem] at h; simp at h
    | ok s2 =>
        rw [hrem] at h
        simp only [Except.ok.injEq, Prod.mk.injEq] at h
        obtain ⟨rfl, -⟩ := h; intro p hp; cases hp
  · simp only [Except.ok.injEq, Prod.mk.injEq] at h
    obtain ⟨rfl, -⟩ := h; intro p hp; cases hp
  · simp only [Except.ok.injEq, Prod.mk.injEq] at h
    obtain ⟨rfl, -⟩ := h; intro p hp; cases hp
  · cases ht : e.sponsorsTier with
    | none => rw [ht] at h; simp at h
    | some t =>
        rw [ht] at h
        dsimp only at h
        by_cases hot : t.isOneTime
        · rw [if_pos hot] at h
          cases hrem : remove_sponsorship s e.login with
          | error err => rw [hrem] at h; simp at h
          | ok s2 =>
              rw [hrem] at h
              simp only [Except.ok.injEq, Prod.mk.injEq] at h
              obtain ⟨rfl, -⟩ := h
              intro p hp
              rw [List.mem_singleton] at hp
              subst hp; rfl
        · rw [if_neg hot] at h
          simp only [Except.ok.injEq, Prod.mk.injEq] at h
          obtain ⟨rfl, -⟩ := h; intro p hp; cases hp
  · cases ht : e.sponsorsTier with
    | none => rw [ht] at h; simp at h
    | some t =>
        rw [ht] at h
        simp only [Except.ok.injEq, Prod.mk.injEq] at h
        obtain ⟨rfl, -⟩ := h
        intro p hp
        rw [List.mem_singleton] at hp
        subst hp; rfl
  · simp only [Except.ok.injEq, Prod.mk.injEq] at h
    obtain ⟨rfl, -⟩ := h; intro p hp; cases hp

theorem applyEventC_payment_login {s : SchedState} {d : Date} {e : Event}
    {ps : List Payment} {s' : SchedState}
    (h : applyEventC s d e = .ok (ps, s')) :
    ∀ p ∈ ps, p.login = e.login := by
  unfold applyEventC at h
  split_ifs at h
  · cases ht : e.sponsorsTier with
    | none => rw [ht] at h; simp at h
    | some t =>
        rw [ht] at h
        dsimp only at h
        by_cases hot : t.isOneTime
        · rw [if_pos hot] at h
          simp only [Except.ok.injEq, Prod.mk.injEq] at h
          obtain ⟨rfl, -⟩ := h
          intro p hp
          rw [List.mem_singleton] at hp
          subst hp; rfl
        · rw [if_neg hot] at h
          simp only [Except.ok.injEq, Prod.mk.injEq] at h
          obtain ⟨rfl, -⟩ := h
          intro p hp
          rw [List.mem_singleton] at hp
          subst hp; rfl
  · simp only [Except.ok.injEq, Prod.mk.injEq] at h
    obtain ⟨rfl, -⟩ := h; intro p hp; cases hp

theorem stepA_payment_login {d : Date} {es : List Event} {s : SchedState}
    {ps : List Payment} {s' : SchedState}
    (h : stepA d s es = .ok (ps, s')) :
    ∀ p ∈ ps, ∃ e' ∈ es, p.login = e'.login := by
  induction es generalizing s ps with
  | nil =>
      unfold stepA at h
      simp only [Except.ok.injEq, Prod.mk.injEq] at h
      obtain ⟨rfl, -⟩ := h; intro p hp; cases hp
  | cons e es ih =>
      rw [stepA_cons] at h
      cases h1 : applyEventA s d e with
      | error err => rw [h1] at h; simp at h
      | ok q =>
          obtain ⟨ps1, s1⟩ := q
          rw [h1] at h
          dsimp only at h
          cases h2 : stepA d s1 es with
          | error err => rw [h2] at h; simp at h
          | ok q2 =>
              obtain ⟨ps2, s2⟩ := q2
              rw [h2] at h
              simp only [Except.ok.injEq, Prod.mk.injEq] at h
              obtain ⟨rfl, rfl⟩ := h
              intro p hp
              rw [List.mem_append] at hp
              rcases hp with hp | hp
              · exact ⟨e, List.mem_cons_self e es, applyEventA_payment_login h1 p hp⟩
              · obtain ⟨e', he', hl⟩ := ih h2 p hp
                exact ⟨e', List.mem_cons_of_mem e he', hl⟩

theorem stepC_payment_login {d : Date} {es : List Event} {s : SchedState}
    {ps : List Payment} {s' : SchedState}
    (h : stepC d s es = .ok (ps, s')) :
    ∀ p ∈ ps, ∃ e' ∈ es, p.login = e'.login := by
  induction es generalizing s ps with
  | nil =>
      unfold stepC at h
      simp only [Except.ok.injEq, Prod.mk.injEq] at h
      obtain ⟨rfl, -⟩ := h; intro p hp; cases hp
  | cons e es ih =>
      rw [stepC_cons] at h
      cases h1 : applyEventC s d e with
      | error err => rw [h1] at h; simp at h
      | ok q =>
          obtain ⟨ps1, s1⟩ := q
          rw [h1] at h
          dsimp only at h
          cases h2 : stepC d s1 es with
          | error err => rw [h2] at h; simp at h
          | ok q2 =>
              obtain ⟨ps2, s2⟩ := q2
              rw [h2] at h
              simp only [Except.ok.injEq, Prod.mk.injEq] at h
              obtain ⟨rfl, rfl⟩ := h
              intro p hp
              rw [List.mem_append] at hp
              rcases hp with hp | hp
              · exact ⟨e, List.mem_cons_self e es, applyEventC_payment_login h1 p hp⟩
              · obtain ⟨e', he', hl⟩ := ih h2 p hp
                exact ⟨e', List.mem_cons_of_mem e he', hl⟩

end OspReporter

namespace OspReporter

theorem lookupSub_delSub_ne {subs : List (String × Nat)} {login L : String}
    (h : L ≠ login) : lookupSub (delSub subs login) L = lookupSub subs L := by
  induction subs with
  | nil => rfl
  | cons p rest ih =>
      obtain ⟨l, a⟩ := p
      by_cases hl : l = login
      · have h1 : delSub ((l, a) :: rest) login = delSub rest login := by
          simp [delSub, List.filter_cons, hl]
        have hlL : ¬ l = L := fun hc => h (hc ▸ hl)
        rw [h1, ih]
        conv_rhs => rw [lookupSub, if_neg hlL]
      · have h1 : delSub ((l, a) :: rest) login = (l, a) :: delSub rest login := by
          simp [delSub, List.filter_cons, hl]
        rw [h1]
        by_cases hlL : l = L
        · rw [lookupSub, if_pos hlL]
          conv_rhs => rw [lookupSub, if_pos hlL]
        · rw [lookupSub, if_neg hlL, ih]
          conv_rhs => rw [lookupSub, if_neg hlL]

theorem lookupSub_setSub_ne {subs : List (String × Nat)} {login L : String} {amt : Nat}
    (h : L ≠ login) : lookupSub (setSub subs login amt) L = lookupSub subs L := by
  induction subs with
  | nil =>
      have hne : ¬ login = L := fun hc => h hc.symm
      simp [setSub, lookupSub, hne]
  | cons p rest ih =>
      obtain ⟨l, a⟩ := p
      by_cases hl : l = login
      · rw [setSub, if_pos hl]
        have hlL : ¬ l = L := fun hc => h (hc ▸ hl)
        rw [lookupSub, if_neg hlL]
        conv_rhs => rw [lookupSub, if_neg hlL]
      · rw [setSub, if_neg hl]
        by_cases hlL : l = L
        · rw [lookupSub, if_pos hlL]
          conv_rhs => rw [lookupSub, if_pos hlL]
        · rw [lookupSub, if_neg hlL, ih]
          conv_rhs => rw [lookupSub, if_neg hlL]

theorem lookupSub_mem {subs : List (String × Nat)} {l : String} {a : Nat}
    (h : (l, a) ∈ subs) : ∃ b, lookupSub subs l = some b := by
  induction subs with
  | nil => cases h
  | cons p rest ih =>
      obtain ⟨k, v⟩ := p
      unfold lookupSub
      by_cases hk : k = l
      · exact ⟨v, if_pos hk⟩
      · rw [if_neg hk]
        rcases List.mem_cons.1 h with hh | hh
        · exact absurd (congrArg Prod.fst hh).symm hk
        · exact ih hh

theorem applyEventA_preserve_lookup {s : SchedState} {d : Date} {e : Event}
    {ps : List Payment} {s' : SchedState} {L : String} (hne : e.login ≠ L)
    (h : applyEventA s d e = .ok (ps, s')) :
    lookupSub s'.subs L = lookupSub s.subs L := by
  unfold applyEventA at h
  split_ifs at h
  · cases hrem : remove_sponsorship s e.login with
    | error err => rw [hrem] at h; simp at h
    | ok s2 =>
        rw [hrem] at h
        simp only [Except.ok.injEq, Prod.mk.injEq] at h
        obtain ⟨-, rfl⟩ := h
        rw [(remove_sponsorship_ok hrem).1]
        exact lookupSub_delSub_ne (Ne.symm hne)
  · simp only [Except.ok.injEq, Prod.mk.injEq] at h
    obtain ⟨-, rfl⟩ := h; rfl
  · simp only [Except.ok.injEq, Prod.mk.injEq] at h
    obtain ⟨-, rfl⟩ := h; rfl
  · cases ht : e.sponsorsTier with
    | none => rw [ht] at h; simp at h
    | some t =>
        rw [ht] at h
        dsimp only at h
        by_cases hot : t.isOneTime
        · rw [if_pos hot] at h
          cases hrem : remove_sponsorship s e.login with
          | error err => rw [hrem] at h; simp at h
          | ok s2 =>
              rw [hrem] at h
              simp only [Except.ok.injEq, Prod.mk.injEq] at h
              obtain ⟨-, rfl⟩ := h
              rw [(remove_sponsorship_ok hrem).1]
              exact lookupSub_delSub_ne (Ne.symm hne)
        · rw [if_neg hot] at h
          simp only [Except.ok.injEq, Prod.mk.injEq] at h
          obtain ⟨-, rfl⟩ := h
          exact lookupSub_setSub_ne (Ne.symm hne)
  · cases ht : e.sponsorsTier with
    | none => rw [ht] at h; simp at h
    | some t =>
        rw [ht] at h
        simp only [Except.ok.injEq, Prod.mk.injEq] at h
        obtain ⟨-, rfl⟩ := h; rfl
  · simp only [Except.ok.injEq, Prod.mk.injEq] at h
    obtain ⟨-, rfl⟩ := h; rfl

theorem stepA_preserve_lookup {d : Date} {es : List Event} {s : SchedState}
    {ps : List Payment} {s' : SchedState} {L : String}
    (hne : ∀ e' ∈ es, e'.login ≠ L)
    (h : stepA d s es = .ok (ps, s')) :
    lookupSub s'.subs L = lookupSub s.subs L := by
  induction es generalizing s ps with
  | nil =>
      unfold stepA at h
      simp only [Except.ok.injEq, Prod.mk.injEq] at h
      obtain ⟨-, rfl⟩ := h; rfl
  | cons e es ih =>
      rw [stepA_cons] at h
      cases h1 : applyEventA s d e with
      | error err => rw [h1] at h; simp at h
      | ok q =>
          obtain ⟨ps1, s1⟩ := q
          rw [h1] at h
          dsimp only at h
          cases h2 : stepA d s1 es with
          | error err => rw [h2] at h; simp at h
          | ok q2 =>
              obtain ⟨ps2, s2⟩ := q2
              rw [h2] at h
              simp only [Except.ok.injEq, Prod.mk.injEq] at h
              obtain ⟨-, rfl⟩ := h
              rw [ih (fun e' he' => hne e' (List.mem_cons_of_mem e he')) h2]
              exact applyEventA_preserve_lookup (hne e (List.mem_cons_self e es)) h1

theorem stepB_payment_login {s : SchedState} {d : Date} :
    ∀ p ∈ stepB s d, ∃ a, lookupSub s.subs p.login = some a := by
  unfold stepB
  split_ifs with hc
  · intro p hp
    rw [List.mem_map] at hp
    obtain ⟨⟨l, a⟩, hmem, rfl⟩ := hp
    exact lookupSub_mem hmem
  · intro p hp; cases hp

theorem filter_login_nil {L : String} {l : List Payment}
    (h : ∀ p ∈ l, p.login ≠ L) :
    l.filter (fun p => p.login = L) = [] := by
  induction l with
  | nil => rfl
  | cons p ps ih =>
      rw [List.filter_cons]
      have hp : ¬ ((fun p : Payment => decide (p.login = L)) p = true) := by
        simp only [decide_eq_true_eq]
        exact h p (List.mem_cons_self p ps)
      rw [if_neg hp]
      exact ih (fun q hq => h q (List.mem_cons_of_mem p hq))

end OspReporter

namespace OspReporter

/-- C4: on any day `d`, the Step B scheduled charge is computed over the
post-Step-A state — before that day's `NEW_SPONSORSHIP` events are applied —
so a recurring subscription newly created on `d` (its login absent from the
active map, with no other event for that login that day) receives exactly one
payment on `d`: its signup charge, and never an additional Step B charge. -/
theorem c4_single_signup_charge (s : SchedState) (d : Date) (es1 es2 : List Event)
    (e : Event) (t : Tier) (ps : List Payment) (s' : SchedState)
    (hact : e.action = "NEW_SPONSORSHIP")
    (htier : e.sponsorsTier = some t) (hrec : t.isOneTime = false)
    (habs : lookupSub s.subs e.login = none)
    (hothers : ∀ e' ∈ es1 ++ es2, e'.login ≠ e.login)
    (hrun : processDay s d (es1 ++ e :: es2) = .ok (ps, s')) :
    ps.filter (fun p => p.login = e.login) =
      [⟨d, e.login, (t.monthlyPriceInCents : Int)⟩] := by
  have hothers1 : ∀ e' ∈ es1, e'.login ≠ e.login :=
    fun e' he' => hothers e' (List.mem_append_left _ he')
  have hothers2 : ∀ e' ∈ es2, e'.login ≠ e.login :=
    fun e' he' => hothers e' (List.mem_append_right _ he')
  have hAnoop : ∀ u : SchedState, applyEventA u d e = .ok ([], u) := by
    intro u
    refine applyEventA_noop ?_ ?_ ?_ u d <;> rw [hact] <;> decide
  unfold processDay at hrun
  cases hA : stepA d s (es1 ++ e :: es2) with
  | error err => rw [hA] at hrun; simp at hrun
  | ok qa =>
      obtain ⟨pa, s1⟩ := qa
      rw [hA] at hrun
      dsimp only at hrun
      cases hC : stepC d s1 (es1 ++ e :: es2) with
      | error err => rw [hC] at hrun; simp at hrun
      | ok qc =>
          obtain ⟨pc, s2⟩ := qc
          rw [hC] at hrun
          simp only [Except.ok.injEq, Prod.mk.injEq] at hrun
          obtain ⟨rfl, rfl⟩ := hrun
          rw [stepA_append] at hA
          cases hA1 : stepA d s es1 with
          | error err => rw [hA1] at hA; simp at hA
          | ok q1 =>
              obtain ⟨p1, u1⟩ := q1
              rw [hA1] at hA
              dsimp only at hA
              rw [stepA_cons, hAnoop u1] at hA
              dsimp only at hA
              cases hA2 : stepA d u1 es2 with
              | error err => rw [hA2] at hA; simp at hA
              | ok q2 =>
                  obtain ⟨p2, u2⟩ := q2
                  rw [hA2] at hA
                  simp only [Except.ok.injEq, Prod.mk.injEq, List.nil_append] at hA
                  obtain ⟨rfl, rfl⟩ := hA
                  -- the newly created login is still absent after Step A
                  have hlook : lookupSub u2.subs e.login = none := by
                    rw [stepA_preserve_lookup hothers2 hA2,
                        stepA_preserve_lookup hothers1 hA1, habs]
                  -- decompose Step C around the new-subscription event
                  rw [stepC_append] at hC
                  cases hC1 : stepC d u2 es1 with
                  | error err => rw [hC1] at hC; simp at hC
                  | ok r1 =>
                      obtain ⟨q1, v1⟩ := r1
                      rw [hC1] at hC
                      dsimp only at hC
                      rw [stepC_cons, applyEventC_new hact htier hrec v1 d] at hC
                      dsimp only at hC
                      cases hC2 : stepC d _ es2 with
                      | error err => rw [hC2] at hC; simp at hC
                      | ok r2 =>
                          obtain ⟨q2, v2⟩ := r2
                          rw [hC2] at hC
                          simp only [Except.ok.injEq, Prod.mk.injEq] at hC
                          obtain ⟨rfl, rfl⟩ := hC
                          -- now filter each block of the day's payments
                          have hfA : (p1 ++ p2).filter (fun p => p.login = e.login) = [] := by
                            refine filter_login_nil ?_
                            intro p hp
                            rcases List.mem_append.1 hp with hp | hp
                            · obtain ⟨e', he', hl⟩ := stepA_payment_login hA1 p hp
                              exact hl ▸ hothers1 e' he'
                            · obtain ⟨e', he', hl⟩ := stepA_payment_login hA2 p hp
                              exact hl ▸ hothers2 e' he'
                          have hfB : (stepB u2 d).filter (fun p => p.login = e.login) = [] := by
                            refine filter_login_nil ?_
                            intro p hp
                            obtain ⟨a, hla⟩ := stepB_payment_login p hp
                            intro hc
                            rw [hc] at hla
                            rw [hlook] at hla
                            cases hla
                          have hfC1 : q1.filter (fun p => p.login = e.login) = [] := by
                            refine filter_login_nil ?_
                            intro p hp
                            obtain ⟨e', he', hl⟩ := stepC_payment_login hC1 p hp
                            exact hl ▸ hothers1 e' he'
                          have hfC2 : q2.filter (fun p => p.login = e.login) = [] := by
                            refine filter_login_nil ?_
                            intro p hp
                            obtain ⟨e', he', hl⟩ := stepC_payment_login hC2 p hp
                            exact hl ▸ hothers2 e' he'
                          rw [List.filter_append, List.filter_append, hfA, hfB,
                              List.filter_append, hfC1, List.filter_append, hfC2,
                              List.filter_cons]
                          rw [if_pos (by simp)]
                          rfl

/-- Witness for `c4_single_signup_charge`: on the billing day itself (anchor
5, date 2024-01-05) with bob already active, alice's recurring signup yields
exactly one payment for alice that day even though Step B fires. -/
theorem c4_single_signup_witness :
    ([⟨⟨2024, 1, 5⟩, "bob", 200⟩, ⟨⟨2024, 1, 5⟩, "alice", 500⟩] : List Payment).filter
        (fun p => p.login = "alice") = [⟨⟨2024, 1, 5⟩, "alice", 500⟩] :=
  c4_single_signup_charge ⟨some 5, [("bob", 200)]⟩ ⟨2024, 1, 5⟩ [] []
    ⟨"NEW_SPONSORSHIP", ⟨⟨2024, 1, 5⟩, 0⟩, "alice", some ⟨500, false⟩, none⟩
    ⟨500, false⟩ _ _ rfl rfl rfl (by decide)
    (fun e' he' => absurd he' (List.not_mem_nil e')) rfl

end OspReporter

namespace OspReporter

set_option maxRecDepth 100000 in
/-- C6 counterexample: a run that does contain two recurring
`NEW_SPONSORSHIP` events for different logins on different days (alice on
2024-01-02 with no anchor set, bob on 2024-01-05), yet bob's subsequent
Step B recurring charge lands on 2024-02-05 — day-of-month 5, the *second*
subscription's day, not the first's (2). The cancellation of alice on
2024-01-03 empties the map, unsets the anchor, and bob's signup re-anchors. -/
theorem c6_reanchor_counterexample :
    reconstruct_payments
        [⟨"NEW_SPONSORSHIP", ⟨⟨2024, 1, 2⟩, 0⟩, "alice", some ⟨500, false⟩, none⟩,
         ⟨"CANCELLED_SPONSORSHIP", ⟨⟨2024, 1, 3⟩, 0⟩, "alice", none, none⟩,
         ⟨"NEW_SPONSORSHIP", ⟨⟨2024, 1, 5⟩, 0⟩, "bob", some ⟨300, false⟩, none⟩]
        ⟨2024, 1, 1⟩ ⟨2024, 2, 5⟩ =
      .ok [⟨⟨2024, 1, 2⟩, "alice", 500⟩, ⟨⟨2024, 1, 5⟩, "bob", 300⟩,
           ⟨⟨2024, 2, 5⟩, "bob", 300⟩] ∧
    (⟨⟨2024, 2, 5⟩, "bob", 300⟩ : Payment).date.d = 5 ∧ ¬ (5 = 2) :=
  ⟨rfl, rfl, by decide⟩

/-- C6 (amended): the anchor really is set only when unset and is never moved
by a later recurring signup — but "both logins always recur on the first's
day-of-month" additionally needs the active map never to become empty in
between, since emptying unsets the anchor and the next signup re-anchors.
Precisely: (i) a Step A event that leaves the map non-empty preserves a set
anchor; (ii) a Step C event never changes a set anchor (a recurring signup
only fills an unset one); (iii) Step B emits charges only on a day whose
day-of-month equals the current anchor. -/
theorem c6_anchor_stability :
    (∀ (s : SchedState) (d : Date) (e : Event) (ps : List Payment)
        (s' : SchedState) (m : Nat),
        s.paymentMonthday = some m → applyEventA s d e = .ok (ps, s') →
        s'.subs ≠ [] → s'.paymentMonthday = some m) ∧
    (∀ (s : SchedState) (d : Date) (e : Event) (ps : List Payment)
        (s' : SchedState) (m : Nat),
        s.paymentMonthday = some m → applyEventC s d e = .ok (ps, s') →
        s'.paymentMonthday = some m) ∧
    (∀ (s : SchedState) (d : Date), stepB s d ≠ [] → s.paymentMonthday = some d.d) := by
  refine ⟨?_, ?_, ?_⟩
  · intro s d e ps s' m hm h hne
    unfold applyEventA at h
    split_ifs at h
    · cases hrem : remove_sponsorship s e.login with
      | error err => rw [hrem] at h; simp at h
      | ok s2 =>
          rw [hrem] at h
          simp only [Except.ok.injEq, Prod.mk.injEq] at h
          obtain ⟨-, rfl⟩ := h
          obtain ⟨h1, h2⟩ := remove_sponsorship_ok hrem
          rw [h2, if_neg (h1 ▸ hne), hm]
    · simp only [Except.ok.injEq, Prod.mk.injEq] at h
      obtain ⟨-, rfl⟩ := h; exact hm
    · simp only [Except.ok.injEq, Prod.mk.injEq] at h
      obtain ⟨-, rfl⟩ := h; exact hm
    · cases ht : e.sponsorsTier with
      | none => rw [ht] at h; simp at h
      | some t =>
          rw [ht] at h
          dsimp only at h
          by_cases hot : t.isOneTime
          · rw [if_pos hot] at h
            cases hrem : remove_sponsorship s e.login with
            | error err => rw [hrem] at h; simp at h
            | ok s2 =>
                rw [hrem] at h
                simp only [Except.ok.injEq, Prod.mk.injEq] at h
                obtain ⟨-, rfl⟩ := h
                obtain ⟨h1, h2⟩ := remove_sponsorship_ok hrem
                rw [h2, if_neg (h1 ▸ hne), hm]
          · rw [if_neg hot] at h
            simp only [Except.ok.injEq, Prod.mk.injEq] at h
            obtain ⟨-, rfl⟩ := h; exact hm
    · cases ht : e.sponsorsTier with
      | none => rw [ht] at h; simp at h
      | some t =>
          rw [ht] at h
          simp only [Except.ok.injEq, Prod.mk.injEq] at h
          obtain ⟨-, rfl⟩ := h; exact hm
    · simp only [Except.ok.injEq, Prod.mk.injEq] at h
      obtain ⟨-, rfl⟩ := h; exact hm
  · intro s d e ps s' m hm h
    unfold applyEventC at h
    split_ifs at h
    · cases ht : e.sponsorsTier with
      | none => rw [ht] at h; simp at h
      | some t =>
          rw [ht] at h
          dsimp only at h
          by_cases hot : t.isOneTime
          · rw [if_pos hot] at h
            simp only [Except.ok.injEq, Prod.mk.injEq] at h
            obtain ⟨-, rfl⟩ := h; exact hm
          · rw [if_neg hot] at h
            simp only [Except.ok.injEq, Prod.mk.injEq] at h
            obtain ⟨-, rfl⟩ := h
            dsimp only
            rw [hm]
            rfl
    · simp only [Except.ok.injEq, Prod.mk.injEq] at h
      obtain ⟨-, rfl⟩ := h; exact hm
  · intro s d h
    unfold stepB at h
    split_ifs at h with hc
    · exact hc.symm
    · exact absurd rfl h

/-- Witness for `c6_anchor_stability` at concrete inputs: a cancellation
leaving bob active keeps the anchor at 5; bob's recurring signup with the
anchor already at 5 keeps it at 5; a firing Step B implies the anchor equals
the day's day-of-month. -/
theorem c6_anchor_witness :
    (⟨some 5, [("bob", 200)]⟩ : SchedState).paymentMonthday = some 5 ∧
    (⟨some 5, [("alice", 500), ("bob", 300)]⟩ : SchedState).paymentMonthday = some 5 ∧
    (⟨some 7, [("alice", 100)]⟩ : SchedState).paymentMonthday = some 7 :=
  ⟨c6_anchor_stability.1 ⟨some 5, [("alice", 500), ("bob", 200)]⟩ ⟨2024, 1, 10⟩
      ⟨"CANCELLED_SPONSORSHIP", ⟨⟨2024, 1, 10⟩, 0⟩, "alice", none, none⟩
      [] ⟨some 5, [("bob", 200)]⟩ 5 rfl rfl (by decide),
   c6_anchor_stability.2.1 ⟨some 5, [("alice", 500)]⟩ ⟨2024, 1, 20⟩
      ⟨"NEW_SPONSORSHIP", ⟨⟨2024, 1, 20⟩, 0⟩, "bob", some ⟨300, false⟩, none⟩
      [⟨⟨2024, 1, 20⟩, "bob", 300⟩] ⟨some 5, [("alice", 500), ("bob", 300)]⟩ 5 rfl rfl,
   c6_anchor_stability.2.2 ⟨some 7, [("alice", 100)]⟩ ⟨2024, 1, 7⟩ (by decide)⟩

end OspReporter

namespace OspReporter

theorem lookupDay_insertEvent (m : List (Date × List Event)) (day : Date) (e : Event)
    (d : Date) :
    lookupDay (insertEvent m day e) d =
      if day = d then
        match lookupDay m d with
        | some xs => some (xs ++ [e])
        | none => some [e]
      else lookupDay m d := by
  induction m with
  | nil =>
      by_cases h : day = d
      · rw [if_pos h]
        unfold insertEvent lookupDay
        rw [if_pos h]
      · rw [if_neg h]
        unfold insertEvent lookupDay
        rw [if_neg h]
        rfl
  | cons p rest ih =>
      obtain ⟨k, v⟩ := p
      unfold insertEvent
      by_cases hk : k = day
      · rw [if_pos hk]
        by_cases hd : k = d
        · have hdd : day = d := hk.symm.trans hd
          rw [lookupDay, if_pos hd, if_pos hdd]
          conv_rhs => rw [lookupDay, if_pos hd]
        · have hdd : ¬ day = d := fun hc => hd (hk.trans hc)
          rw [lookupDay, if_neg hd, if_neg hdd, lookupDay, if_neg hd]
      · rw [if_neg hk]
        by_cases hd : k = d
        · have hdd : ¬ day = d := fun hc => hk (hd.trans hc.symm)
          rw [lookupDay, if_pos hd, if_neg hdd, lookupDay, if_pos hd]
        · rw [lookupDay, if_neg hd, ih]
          conv_rhs => rw [lookupDay, if_neg hd]

theorem lookupDay_foldl (es : List Event) :
    ∀ (m : List (Date × List Event)) (d : Date),
    lookupDay (es.foldl (fun m e => insertEvent m (eventDay e) e) m) d =
      match lookupDay m d with
      | some xs => some (xs ++ dayFilter es d)
      | none => if dayFilter es d = [] then none else some (dayFilter es d) := by
  induction es with
  | nil =>
      intro m d
      rw [List.foldl_nil]
      cases h : lookupDay m d with
      | none =>
          dsimp only
          rw [if_pos (show dayFilter [] d = [] from rfl)]
      | some xs =>
          dsimp only
          show some xs = some (xs ++ [])
          rw [List.append_nil]
  | cons e es ih =>
      intro m d
      rw [List.foldl_cons, ih, lookupDay_insertEvent]
      by_cases hd : eventDay e = d
      · rw [if_pos hd]
        have hf : dayFilter (e :: es) d = e :: dayFilter es d := by
          unfold dayFilter
          rw [List.filter_cons, if_pos (by simp [hd])]
        rw [hf]
        cases h : lookupDay m d with
        | some xs =>
            dsimp only
            rw [List.append_assoc]
            rfl
        | none =>
            dsimp only
            rw [if_neg (by simp)]
            rfl
      · rw [if_neg hd]
        have hf : dayFilter (e :: es) d = dayFilter es d := by
          unfold dayFilter
          rw [List.filter_cons, if_neg (by simp [hd])]
        rw [hf]

theorem lookupDay_make (events : List Event) (d : Date) :
    lookupDay (make_day_to_events_map events) d =
      if dayFilter events d = [] then none else some (dayFilter events d) := by
  unfold make_day_to_events_map
  rw [lookupDay_foldl]
  rfl

theorem todaysEvents_eq_dayFilter (events : List Event) (d : Date) :
    todaysEvents events d = dayFilter events d := by
  unfold todaysEvents
  rw [lookupDay_make]
  by_cases h : dayFilter events d = []
  · rw [if_pos h, h]; rfl
  · rw [if_neg h]; rfl

/-- C8: the grouper is a pure function (grouping the same list twice gives
the same mapping), and for every day `d` its bucket is exactly the ordered
subsequence of input events whose timestamp falls on `d` — with the day
absent from the mapping (lookup `none`) exactly when no event falls on it. -/
theorem c8_grouper_buckets (es : List Event) :
    make_day_to_events_map es = make_day_to_events_map es ∧
    ∀ d : Date,
      lookupDay (make_day_to_events_map es) d =
        if es.filter (fun e => eventDay e = d) = [] then none
        else some (es.filter (fun e => eventDay e = d)) :=
  ⟨rfl, fun d => lookupDay_make es d⟩

end OspReporter

namespace OspReporter

theorem runOverDays_congr {g1 g2 : Date → List Event} (days : List Date)
    (h : ∀ d ∈ days, ∀ s : SchedState, processDay s d (g1 d) = processDay s d (g2 d)) :
    ∀ s, runOverDays g1 s days = runOverDays g2 s days := by
  induction days with
  | nil => intro s; rfl
  | cons day rest ih =>
      intro s
      unfold runOverDays
      rw [h day (List.mem_cons_self day rest) s]
      cases hp : processDay s day (g2 day) with
      | error err => rfl
      | ok q =>
          obtain ⟨ps, s'⟩ := q
          dsimp only
          rw [ih (fun d hd s => h d (List.mem_cons_of_mem day hd) s) s']

theorem stepA_noop_middle {d : Date} {e : Event}
    (hnoop : ∀ u : SchedState, applyEventA u d e = .ok ([], u)) (xs : List Event) :
    ∀ (s : SchedState) (ys : List Event),
    stepA d s (xs ++ e :: ys) = stepA d s (xs ++ ys) := by
  induction xs with
  | nil =>
      intro s ys
      rw [List.nil_append, List.nil_append, stepA_cons, hnoop s]
      dsimp only
      cases h : stepA d s ys with
      | error err => rfl
      | ok q => obtain ⟨ps, s'⟩ := q; dsimp only; rw [List.nil_append]
  | cons f xs ih =>
      intro s ys
      rw [List.cons_append, List.cons_append, stepA_cons, stepA_cons]
      cases h : applyEventA s d f with
      | error err => rfl
      | ok q =>
          obtain ⟨ps1, s1⟩ := q
          dsimp only
          rw [ih s1 ys]

theorem stepC_noop_middle {d : Date} {e : Event}
    (hnoop : ∀ u : SchedState, applyEventC u d e = .ok ([], u)) (xs : List Event) :
    ∀ (s : SchedState) (ys : List Event),
    stepC d s (xs ++ e :: ys) = stepC d s (xs ++ ys) := by
  induction xs with
  | nil =>
      intro s ys
      rw [List.nil_append, List.nil_append, stepC_cons, hnoop s]
      dsimp only
      cases h : stepC d s ys with
      | error err => rfl
      | ok q => obtain ⟨ps, s'⟩ := q; dsimp only; rw [List.nil_append]
  | cons f xs ih =>
      intro s ys
      rw [List.cons_append, List.cons_append, stepC_cons, stepC_cons]
      cases h : applyEventC s d f with
      | error err => rfl
      | ok q =>
          obtain ⟨ps1, s1⟩ := q
          dsimp only
          rw [ih s1 ys]

theorem processDay_skip_event {d : Date} {e : Event}
    (hA : ∀ u : SchedState, applyEventA u d e = .ok ([], u))
    (hC : ∀ u : SchedState, applyEventC u d e = .ok ([], u))
    (s : SchedState) (xs ys : List Event) :
    processDay s d (xs ++ e :: ys) = processDay s d (xs ++ ys) := by
  unfold processDay
  rw [stepA_noop_middle hA xs s ys]
  cases h1 : stepA d s (xs ++ ys) with
  | error err => rfl
  | ok q =>
      obtain ⟨pa, s1⟩ := q
      dsimp only
      rw [stepC_noop_middle hC xs s1 ys]

/-- C9: an event whose action is none of the six recognized kinds is
silently skipped: both per-day passes return no payments, no error, and the
unchanged state, and consequently the whole reconstruction over any range
equals the reconstruction with that event deleted from the input list. -/
theorem c9_unknown_action_skipped (e : Event)
    (h : e.action ∉ (["NEW_SPONSORSHIP", "CANCELLED_SPONSORSHIP", "PENDING_CHANGE",
        "SPONSOR_MATCH_DISABLED", "TIER_CHANGE", "REFUND"] : List String)) :
    (∀ (s : SchedState) (d : Date), applyEventA s d e = .ok ([], s)) ∧
    (∀ (s : SchedState) (d : Date), applyEventC s d e = .ok ([], s)) ∧
    (∀ (l1 l2 : List Event) (start fin : Date),
        reconstruct_payments (l1 ++ e :: l2) start fin =
        reconstruct_payments (l1 ++ l2) start fin) := by
  have hc : e.action ≠ "CANCELLED_SPONSORSHIP" := fun hx => h (by rw [hx]; decide)
  have ht : e.action ≠ "TIER_CHANGE" := fun hx => h (by rw [hx]; decide)
  have hr : e.action ≠ "REFUND" := fun hx => h (by rw [hx]; decide)
  have hn : e.action ≠ "NEW_SPONSORSHIP" := fun hx => h (by rw [hx]; decide)
  have hA : ∀ (s : SchedState) (d : Date), applyEventA s d e = .ok ([], s) :=
    fun s d => applyEventA_noop hc ht hr s d
  have hC : ∀ (s : SchedState) (d : Date), applyEventC s d e = .ok ([], s) :=
    fun s d => applyEventC_noop hn s d
  refine ⟨hA, hC, ?_⟩
  intro l1 l2 start fin
  unfold reconstruct_payments
  have hrun : runOverDays (todaysEvents (l1 ++ e :: l2)) ⟨none, []⟩ (dateRange start fin) =
      runOverDays (todaysEvents (l1 ++ l2)) ⟨none, []⟩ (dateRange start fin) := by
    refine runOverDays_congr (dateRange start fin) ?_ _
    intro d hd s
    rw [todaysEvents_eq_dayFilter, todaysEvents_eq_dayFilter]
    unfold dayFilter
    rw [List.filter_append, List.filter_append, List.filter_cons]
    by_cases hday : eventDay e = d
    · rw [if_pos (by simp [hday])]
      exact processDay_skip_event (fun u => hA u d) (fun u => hC u d) s _ _
    · rw [if_neg (by simp [hday])]
  rw [hrun]

/-- Witness for `c9_unknown_action_skipped`: an event with the unrecognized
action `SPONSORSHIP_PENDING` contributes nothing to a run. -/
theorem c9_unknown_action_witness :
    reconstruct_payments
        [⟨"SPONSORSHIP_PENDING", ⟨⟨2024, 1, 5⟩, 0⟩, "alice", some ⟨500, false⟩, none⟩]
        ⟨2024, 1, 1⟩ ⟨2024, 1, 10⟩ =
      reconstruct_payments [] ⟨2024, 1, 1⟩ ⟨2024, 1, 10⟩ :=
  (c9_unknown_action_skipped
    ⟨"SPONSORSHIP_PENDING", ⟨⟨2024, 1, 5⟩, 0⟩, "alice", some ⟨500, false⟩, none⟩
    (by decide)).2.2 [] [] ⟨2024, 1, 1⟩ ⟨2024, 1, 10⟩

/-- C10: an event whose calendar day falls strictly before `start_date` or
strictly after `end_date` never reaches the engine: every simulated day's
bucket is unchanged by deleting it, so the output is identical to the run
without that event. -/
theorem c10_out_of_range_ignored (e : Event) (l1 l2 : List Event) (start fin : Date)
    (h : dateLT (eventDay e) start ∨ dateLT fin (eventDay e)) :
    reconstruct_payments (l1 ++ e :: l2) start fin =
      reconstruct_payments (l1 ++ l2) start fin := by
  unfold reconstruct_payments
  have hrun : runOverDays (todaysEvents (l1 ++ e :: l2)) ⟨none, []⟩ (dateRange start fin) =
      runOverDays (todaysEvents (l1 ++ l2)) ⟨none, []⟩ (dateRange start fin) := by
    refine runOverDays_congr (dateRange start fin) ?_ _
    intro d hd s
    obtain ⟨h1, h2⟩ := mem_dateRange hd
    have hne : ¬ (eventDay e = d) := by
      rcases h with h | h
      · exact fun hc => (ne_of_dateLT (dateLT_of_dateLT_of_dateLE h h1)) hc
      · exact fun hc => (ne_of_dateLT (dateLT_of_dateLE_of_dateLT h2 h)) hc.symm
    rw [todaysEvents_eq_dayFilter, todaysEvents_eq_dayFilter]
    unfold dayFilter
    rw [List.filter_append, List.filter_append, List.filter_cons,
        if_neg (by simp [hne])]
  rw [hrun]

/-- Witness for `c10_out_of_range_ignored`: a new-subscription event the day
before the range contributes nothing at all — not even recurring charges. -/
theorem c10_out_of_range_witness :
    reconstruct_payments
        [⟨"NEW_SPONSORSHIP", ⟨⟨2023, 12, 31⟩, 0⟩, "alice", some ⟨500, false⟩, none⟩]
        ⟨2024, 1, 1⟩ ⟨2024, 1, 5⟩ =
      reconstruct_payments [] ⟨2024, 1, 1⟩ ⟨2024, 1, 5⟩ :=
  c10_out_of_range_ignored
    ⟨"NEW_SPONSORSHIP", ⟨⟨2023, 12, 31⟩, 0⟩, "alice", some ⟨500, false⟩, none⟩
    [] [] ⟨2024, 1, 1⟩ ⟨2024, 1, 5⟩ (Or.inl (by decide))

end OspReporter
